import Mathlib

/-!
Verification of the resource-aware adaptive processing engine of
`claude_subagent/resource_management/__init__.py`.

The Python module is shallowly embedded:
* Python floats that only undergo division, multiplication and comparison are
  modelled as rationals (`ℚ`);
* Python values flowing through the executor (work items and per-item results)
  are modelled by the closed universe `PyVal` (naturals, lists, `None`), which
  is rich enough to express every behaviour the claims mention
  (`isinstance(x, list)` checks, `None` slots for swallowed exceptions);
* a fallible callback is `PyVal → Option PyVal`, `none` meaning the call
  raised; the engine converts a raised call into a Python `None`
  (`PyVal.vnone`) result slot;
* `asyncio.gather` preserves the order of its argument list, so the
  parallel-limited strategy is order-preserving by construction.
-/

/-- Universe of Python values handled by the executor: integers, flat lists of
integers and `None`.  This sub-universe of Python's values is rich enough for
every behaviour the specification mentions: `isinstance(x, list)` checks
(`vlist`), scalar results (`vnat`), and the `None` slot appended for a
swallowed exception (`vnone`).  Equality on `PyVal` is Python's structural
`==` on these values. -/
inductive PyVal where
  | vnat : Nat → PyVal
  | vlist : List Nat → PyVal
  | vnone : PyVal
deriving DecidableEq

/-- `ConstraintLevel` enum of the source (`NONE < LOW < MEDIUM < HIGH <
CRITICAL`). -/
inductive ConstraintLevel where
  | none
  | low
  | medium
  | high
  | critical
deriving DecidableEq

/-- `OptimizationStrategy` enum of the source. -/
inductive OptimizationStrategy where
  | sequential
  | batch_optimized
  | parallel_limited
  | skill_priority
  | adaptive_sampling
  | caching_aggressive
  | offload_external
deriving DecidableEq

/-- `ResourceMetrics` dataclass: one snapshot of system load.  Python floats
are modelled as rationals, counts as naturals. -/
structure ResourceMetrics where
  timestamp : ℚ
  cpu_percent : ℚ
  memory_percent : ℚ
  memory_available_mb : ℚ
  memory_used_mb : ℚ
  disk_io_read_mb : ℚ
  disk_io_write_mb : ℚ
  network_io_sent_mb : ℚ
  network_io_recv_mb : ℚ
  active_threads : ℕ
  active_processes : ℕ
  gpu_utilization : ℚ
  gpu_memory_mb : ℚ

/-- `ResourceConstraints` dataclass (configuration). -/
structure ResourceConstraints where
  max_cpu_percent : ℚ
  max_memory_percent : ℚ
  max_memory_mb : Option ℚ
  max_threads : Option ℕ
  max_processes : Option ℕ
  max_batch_size : ℕ
  max_concurrent_tasks : ℕ
  disk_io_limit_mb_per_sec : Option ℚ
  network_io_limit_mb_per_sec : Option ℚ
  enable_gpu : Bool
  enable_offloading : Bool

/-- The dataclass defaults of `ResourceConstraints`. -/
def defaultConstraints : ResourceConstraints :=
  ⟨80, 80, Option.none, Option.none, Option.none, 1000, 4, Option.none, Option.none,
    false, false⟩

/-- `ResourceConstraints.get_constraint_level`: the constraint-tier
classifier.  `if self.max_cpu_percent` is Python float truthiness, i.e. the
ratio is `0` exactly when the configured maximum is `0`. -/
def ResourceConstraints.get_constraint_level (c : ResourceConstraints)
    (m : ResourceMetrics) : ConstraintLevel :=
  let cpuRat : ℚ := if c.max_cpu_percent ≠ 0 then m.cpu_percent / c.max_cpu_percent else 0
  let memRat : ℚ := if c.max_memory_percent ≠ 0 then m.memory_percent / c.max_memory_percent else 0
  let maxRat := max cpuRat memRat
  if maxRat < 1/2 then .none
  else if maxRat < 7/10 then .low
  else if maxRat < 9/10 then .medium
  else if maxRat < 11/10 then .high
  else .critical

/-- `ResourceOptimizer.select_optimal_strategy`.  The optimizer's only state
used by this method is its `constraints` field, so the method is modelled as a
function of the constraints; the unused `estimated_complexity` parameter is
dropped.  The source's `if/elif` chain on the enum is an exhaustive match. -/
def select_optimal_strategy (c : ResourceConstraints) (m : ResourceMetrics)
    (task_count : ℕ) : OptimizationStrategy :=
  match c.get_constraint_level m with
  | .none => if task_count > 10 then .parallel_limited else .batch_optimized
  | .low => .batch_optimized
  | .medium => .skill_priority
  | .high => if task_count > 100 then .adaptive_sampling else .caching_aggressive
  | .critical => .sequential

/-- The per-tier arm of `ResourceOptimizer.optimize_batch_size`.  Python mixes
ints and floats here (`base * 1.5` is a float), so the result is a rational;
`//` is integer floor division. -/
def batchSizeForLevel (level : ConstraintLevel) (base maxBatch : ℕ) : ℚ :=
  match level with
  | .none => min ((base : ℚ) * 2) (maxBatch : ℚ)
  | .low => min ((base : ℚ) * (3/2)) (maxBatch : ℚ)
  | .medium => (base : ℚ)
  | .high => max ((base / 2 : ℕ) : ℚ) 10
  | .critical => max ((base / 4 : ℕ) : ℚ) 1

/-- `ResourceOptimizer.optimize_batch_size`: classify, then apply the per-tier
arm with the configured `max_batch_size`. -/
def optimize_batch_size (c : ResourceConstraints) (m : ResourceMetrics)
    (base_batch_size : ℕ) : ℚ :=
  batchSizeForLevel (c.get_constraint_level m) base_batch_size c.max_batch_size

/-!
Task executor

A per-item callback is `PyVal → Option PyVal`; `Option.none` models a raised
exception.  The wrapper `_execute_with_resource_management` only monitors
resources (backpressure wait, GC hint) and then calls the callback,
propagating its result or exception unchanged, so on the level of values it
is the identity; it is modelled separately for claim C9.
-/

/-- `AdaptiveProcessingEngine._process_sequential`: loop over the items; a
successful call appends its result, an exception is caught and `None` is
appended instead. -/
def processSequential (f : PyVal → Option PyVal) : List PyVal → List PyVal
  | [] => []
  | it :: rest =>
    (match f it with
     | Option.some r => r
     | Option.none => PyVal.vnone) :: processSequential f rest

/-- `AdaptiveProcessingEngine._process_parallel_limited`: one task per item is
created in input order, `asyncio.gather` returns the outcomes in that same
input order, and each exception outcome is replaced by `None`.  The
`concurrency` bound sizes the worker pool and does not affect the values. -/
def processParallelLimited (f : PyVal → Option PyVal) (concurrency : ℕ)
    (items : List PyVal) : List PyVal :=
  let tasks := items.map f
  let _ := concurrency
  tasks.map (fun outcome =>
    match outcome with
    | Option.some r => r
    | Option.none => PyVal.vnone)

/-- Recursion core of the chunking loop; `fuel` bounds the number of chunks
(the list length always suffices when `bs ≥ 1`, since each chunk consumes at
least one element). -/
def chunkListGo (bs : ℕ) : ℕ → List PyVal → List (List PyVal)
  | _, [] => []
  | 0, _ => []
  | fuel + 1, l => l.take bs :: chunkListGo bs fuel (l.drop bs)

/-- The chunking loop `for i in range(0, len(items), batch_size)` of
`_process_batch_optimized` (for `batch_size ≥ 1`; the source never calls it
with `0`, where Python `range` would raise). -/
def chunkList (bs : ℕ) (l : List PyVal) : List (List PyVal) :=
  if bs = 0 then [] else chunkListGo bs l.length l

/-- The per-chunk step of `_process_batch_optimized`'s loop body: a list
return is `extend`ed element-wise into the results, a non-list return is
appended as a single result, and an exception is replaced by one `None` per
chunk item.  (The elements of a returned `vlist` are Python ints in our
universe, hence re-enter the results as `vnat`s.) -/
def chunkResult (g : List PyVal → Option PyVal) (chunk : List PyVal) :
    List PyVal :=
  match g chunk with
  | Option.none => List.replicate chunk.length PyVal.vnone
  | Option.some (.vlist l) => l.map PyVal.vnat
  | Option.some v => [v]

/-- `AdaptiveProcessingEngine._process_batch_optimized`: the callback is
invoked once per chunk of `batch_size` items, with the chunk results
accumulated in chunk order. -/
def processBatchOptimized (g : List PyVal → Option PyVal) (bs : ℕ)
    (items : List PyVal) : List PyVal :=
  (chunkList bs items).flatMap (chunkResult g)

/-- `AdaptiveProcessingEngine._process_skill_priority`: per item, the best
skills are computed and passed as an extra keyword argument, then the callback
runs under the same try/except as the sequential loop.  The preferred-skills
keyword does not change which item is passed, so on values the loop matches
the sequential one. -/
def processSkillPriority (f : PyVal → Option PyVal) : List PyVal → List PyVal
  | [] => []
  | it :: rest =>
    (match f it with
     | Option.some r => r
     | Option.none => PyVal.vnone) :: processSkillPriority f rest

/-- `AdaptiveProcessingEngine._process_offload_external`: falls back to the
sequential loop. -/
def processOffloadExternal (f : PyVal → Option PyVal) (items : List PyVal) :
    List PyVal :=
  processSequential f items

/-!
Aggressive caching

`_create_cache_key` builds `md5(f"{func_name}:{item_str}".encode()).hexdigest()`
where `item_str` is `str(item)` for str/dict/int/float items and
`pickle.dumps(item)` otherwise.  Both renderings and the md5 hex digest are
deterministic functions of their input; the digest is modelled as the identity
on the combined pre-image string (md5 collisions are outside the model).  What
the claims exercise is exactly which inputs the key depends on: the callback's
`__name__` and the rendering of the item — not the callback object itself. -/

/-- Python `str` of a value in our universe (`str(7) = "7"`,
`str([1, 2]) = "[1, 2]"`, `str(None) = "None"`). -/
def pyStr : PyVal → String
  | .vnat n => toString n
  | .vnone => "None"
  | .vlist l => "[" ++ String.intercalate ", " (l.map toString) ++ "]"

/-- The `item_str` of `_create_cache_key`: ints go through `str`, everything
outside `(str, dict, int, float)` — lists and `None` here — is pickled.
`pickle.dumps` is a deterministic injective serialization, modelled by
tagging the rendering. -/
def itemKeyStr : PyVal → String
  | .vnat n => toString n
  | v => "pickle:" ++ pyStr v

/-- `AdaptiveProcessingEngine._create_cache_key` (md5 modelled as identity on
the pre-image). -/
def createCacheKey (item : PyVal) (funcName : String) : String :=
  funcName ++ ":" ++ itemKeyStr item

/-- A processing callback as the cache sees it: a Python function object has
an identity (here: the Lean function `fn`) and a `__name__` (here: `name`);
only the latter enters the cache key. -/
structure Callback where
  name : String
  fn : PyVal → Option PyVal

/-- Dictionary lookup in `performance_cache`, modelled as first match in an
association list. -/
def lookupKey : List (String × PyVal) → String → Option PyVal
  | [], _ => Option.none
  | (k, v) :: rest, key => if k = key then Option.some v else lookupKey rest key

/-- Outcome of a `_process_caching_aggressive` run: the result list, the cache
afterwards, and — for reasoning about invocation counts — the cache keys of
the calls that actually reached the callback, in order. -/
structure CacheRun where
  results : List PyVal
  cache : List (String × PyVal)
  invoked : List String
deriving DecidableEq

/-- `AdaptiveProcessingEngine._process_caching_aggressive`: per item, compute
the key; on a hit append the cached value without calling the callback; on a
miss call it — a successful result is stored only while the cache holds fewer
than 1000 entries and is appended, an exception appends `None` and caches
nothing. -/
def processCachingAggressive (cb : Callback) :
    List PyVal → List (String × PyVal) → CacheRun
  | [], cache => ⟨[], cache, []⟩
  | it :: rest, cache =>
    let key := createCacheKey it cb.name
    match lookupKey cache key with
    | Option.some v =>
      let r := processCachingAggressive cb rest cache
      ⟨v :: r.results, r.cache, r.invoked⟩
    | Option.none =>
      match cb.fn it with
      | Option.some res =>
        let cache2 := if cache.length < 1000 then cache ++ [(key, res)] else cache
        let r := processCachingAggressive cb rest cache2
        ⟨res :: r.results, r.cache, key :: r.invoked⟩
      | Option.none =>
        let r := processCachingAggressive cb rest cache
        ⟨PyVal.vnone :: r.results, r.cache, key :: r.invoked⟩

/-!
Adaptive sampling

`_process_adaptive_sampling` re-reads the latest snapshot and classifies it;
the embedding is parameterised directly by that classified tier.  The sample
fractions 0.1, 0.25 and 0.5 make Python's `int(total_items * sample_ratio)`
exact floor division by 10, 4 and 2 respectively (0.25 and 0.5 are exact
binary floats; for 0.1 the rounding of `n * 0.1` never crosses an integer
boundary for any list length realisable here). -/

/-- `sample_size = max(1, min(total_items, int(total_items * sample_ratio)))`
with the tier-dependent `sample_ratio` (`CRITICAL → 0.1`, `HIGH → 0.25`,
otherwise `0.5`). -/
def sampleSizeOf (level : ConstraintLevel) (total : ℕ) : ℕ :=
  let frac :=
    match level with
    | .critical => total / 10
    | .high => total / 4
    | _ => total / 2
  max 1 (min total frac)

/-- Recursion core of the extended slice; `fuel` bounds the number of steps
(the list length always suffices, since each step consumes at least one
element). -/
def everyNthGo (k : ℕ) : ℕ → List PyVal → List PyVal
  | _, [] => []
  | 0, _ => []
  | fuel + 1, x :: xs => x :: everyNthGo k fuel (xs.drop (k - 1))

/-- Python's extended slice `l[::k]` for `k ≥ 1`: every `k`-th element,
starting with the first. -/
def everyNth (k : ℕ) (l : List PyVal) : List PyVal :=
  everyNthGo k l.length l

/-- `first_end = max(1, sample_size // 5)`. -/
def firstEndOf (ss : ℕ) : ℕ := max 1 (ss / 5)

/-- `last_start = max(first_end, total_items - sample_size // 5)`. -/
def lastStartOf (total ss : ℕ) : ℕ := max (firstEndOf ss) (total - ss / 5)

/-- The step of the middle slice,
`max(1, (last_start - first_end) // max(1, middle_sample))` with
`middle_sample = sample_size - first_end - (total_items - last_start)`. -/
def strideOf (total ss : ℕ) : ℕ :=
  let fe := firstEndOf ss
  let ls := lastStartOf total ss
  let ms : ℤ := (ss : ℤ) - (fe : ℤ) - ((total : ℤ) - (ls : ℤ))
  (max 1 (((ls : ℤ) - (fe : ℤ)) / (max 1 ms))).toNat

/-- The items selected by `_process_adaptive_sampling`: the whole list when
`total_items <= sample_size`, otherwise
`data[:first_end] + data[first_end:last_start][::stride] + data[last_start:]`
with the source's `first_end`, `last_start`, `middle_sample` and stride
arithmetic (`middle_sample` is a Python int and may in principle be negative,
hence the `ℤ` detour in `strideOf`; `//` on the non-negative operands involved
is plain floor division). -/
def sampledItemsOf (level : ConstraintLevel) (items : List PyVal) : List PyVal :=
  if items.length ≤ sampleSizeOf level items.length then items
  else
    items.take (firstEndOf (sampleSizeOf level items.length))
      ++ everyNth (strideOf items.length (sampleSizeOf level items.length))
          ((items.drop (firstEndOf (sampleSizeOf level items.length))).take
            (lastStartOf items.length (sampleSizeOf level items.length)
              - firstEndOf (sampleSizeOf level items.length)))
      ++ items.drop (lastStartOf items.length (sampleSizeOf level items.length))

/-- The walk of `_extrapolate_results` over `all_items`: the cursor
`sample_index` into the (equal-length) sampled items and sampled results is
modelled by consuming the zipped list; an item equal (Python `==`) to the
sampled item under the cursor receives the sampled result and advances the
cursor, every other item receives the conservative placeholder. -/
def extraWalk (ph : PyVal) : List (PyVal × PyVal) → List PyVal → List PyVal
  | _, [] => []
  | [], _ :: rest => ph :: extraWalk ph [] rest
  | (si, sr) :: sps, it :: rest =>
    if it = si then sr :: extraWalk ph sps rest
    else ph :: extraWalk ph ((si, sr) :: sps) rest

/-- The conservative placeholder of `_extrapolate_results`:
`[] if isinstance(sampled_results[0] if sampled_results else None, list) else
None`. -/
def placeholderOf (sampledResults : List PyVal) : PyVal :=
  match sampledResults.head? with
  | Option.some (.vlist _) => PyVal.vlist []
  | _ => PyVal.vnone

/-- `AdaptiveProcessingEngine._extrapolate_results`. -/
def extrapolateResults (sampledItems sampledResults allItems : List PyVal) :
    List PyVal :=
  if sampledItems.length = allItems.length then sampledResults
  else extraWalk (placeholderOf sampledResults) (sampledItems.zip sampledResults) allItems

/-- `AdaptiveProcessingEngine._process_adaptive_sampling`: sample, process the
sample sequentially, extrapolate back over the full list. -/
def processAdaptiveSampling (f : PyVal → Option PyVal) (level : ConstraintLevel)
    (items : List PyVal) : List PyVal :=
  let sampled := sampledItemsOf level items
  let sampledResults := processSequential f sampled
  extrapolateResults sampled sampledResults items

/-!
Backpressure wait

`_wait_for_resources` polls the latest snapshot's tier once per second until
the tier improves or the timeout elapses; the snapshot visible at poll `t`
(i.e. `t` seconds after entry) is modelled as `latest t`, `Option.none`
meaning "no data yet".  The returned pair is (result, number of polls). -/

/-- The polling loop with `rem` whole seconds left before the deadline. -/
def waitLoop (latest : ℕ → Option ConstraintLevel) (t rem : ℕ) : Bool × ℕ :=
  match rem with
  | 0 => (false, 0)
  | r + 1 =>
    match latest t with
    | Option.some lvl =>
      if lvl = ConstraintLevel.critical then
        let p := waitLoop latest (t + 1) r
        (p.1, p.2 + 1)
      else (true, 1)
    | Option.none =>
      let p := waitLoop latest (t + 1) r
      (p.1, p.2 + 1)

/-- `AdaptiveProcessingEngine._wait_for_resources` (default
`timeout_seconds = 30.0`, sleep 1s per iteration, so at most `timeoutS`
polls). -/
def waitForResources (latest : ℕ → Option ConstraintLevel) (timeoutS : ℕ) :
    Bool × ℕ :=
  waitLoop latest 0 timeoutS

/-- `AdaptiveProcessingEngine._execute_with_resource_management`: if the
current snapshot classifies as CRITICAL, perform the bounded backpressure
wait; whatever that wait returned — including a timeout — execution then
proceeds with the callback, whose result or exception is passed through
unchanged (the GC hint does not affect values). -/
def executeWithRM (latest : ℕ → Option ConstraintLevel)
    (cur : Option ConstraintLevel) (f : PyVal → Option PyVal) (x : PyVal) :
    Option PyVal :=
  let _waited := if cur = Option.some ConstraintLevel.critical
    then (waitForResources latest 30).1 else true
  f x

/-!
Helper lemmas about the executor
-/

theorem processSequential_eq_map (f : PyVal → Option PyVal) (l : List PyVal) :
    processSequential f l = l.map (fun it => (f it).getD PyVal.vnone) := by
  induction l with
  | nil => rfl
  | cons it rest ih =>
    simp only [processSequential, List.map_cons, ih]
    cases f it <;> rfl

theorem length_processSequential (f : PyVal → Option PyVal) (l : List PyVal) :
    (processSequential f l).length = l.length := by
  rw [processSequential_eq_map, List.length_map]

theorem getElem?_processSequential (f : PyVal → Option PyVal) (l : List PyVal)
    (i : ℕ) :
    (processSequential f l)[i]? = l[i]?.map (fun it => (f it).getD PyVal.vnone) := by
  rw [processSequential_eq_map, List.getElem?_map]

theorem processParallelLimited_eq (f : PyVal → Option PyVal) (concurrency : ℕ)
    (l : List PyVal) :
    processParallelLimited f concurrency l = processSequential f l := by
  rw [processSequential_eq_map]
  simp only [processParallelLimited, List.map_map]
  apply List.map_congr_left
  intro it _
  cases h : f it <;> simp [Function.comp, h]

theorem processSkillPriority_eq (f : PyVal → Option PyVal) (l : List PyVal) :
    processSkillPriority f l = processSequential f l := by
  induction l with
  | nil => rfl
  | cons it rest ih => simp only [processSkillPriority, processSequential, ih]

theorem chunkListGo_flatMap_length (g : List PyVal → List PyVal) (bs : ℕ)
    (hbs : 1 ≤ bs) :
    ∀ (fuel : ℕ) (l : List PyVal), l.length ≤ fuel →
    (∀ c ∈ chunkListGo bs fuel l, (g c).length = c.length) →
    ((chunkListGo bs fuel l).flatMap g).length = l.length := by
  intro fuel
  induction fuel with
  | zero =>
    intro l hlen _
    have hnil : l = [] := List.eq_nil_of_length_eq_zero (Nat.le_zero.mp hlen)
    subst hnil
    simp [chunkListGo]
  | succ f ih =>
    intro l hlen hg
    cases l with
    | nil => simp [chunkListGo]
    | cons x xs =>
      simp only [chunkListGo] at hg ⊢
      simp only [List.flatMap_cons, List.length_append]
      rw [hg _ (List.mem_cons_self _ _),
        ih _ (by simp only [List.length_drop, List.length_cons] at hlen ⊢; omega)
          (fun c hc => hg c (List.mem_cons_of_mem _ hc))]
      simp only [List.length_take, List.length_drop, List.length_cons]
      omega

theorem chunkList_flatMap_length (g : List PyVal → List PyVal) (bs : ℕ)
    (hbs : 1 ≤ bs) (l : List PyVal)
    (hg : ∀ c ∈ chunkList bs l, (g c).length = c.length) :
    ((chunkList bs l).flatMap g).length = l.length := by
  rw [chunkList, if_neg (by omega)] at hg ⊢
  exact chunkListGo_flatMap_length g bs hbs l.length l (Nat.le_refl _) hg

theorem everyNthGo_sublist (k : ℕ) :
    ∀ (fuel : ℕ) (l : List PyVal), (everyNthGo k fuel l).Sublist l := by
  intro fuel
  induction fuel with
  | zero =>
    intro l
    cases l <;> simp [everyNthGo]
  | succ f ih =>
    intro l
    cases l with
    | nil => simp [everyNthGo]
    | cons x xs =>
      rw [everyNthGo]
      exact List.Sublist.cons₂ x ((ih _).trans (List.drop_sublist _ _))

theorem everyNth_sublist (k : ℕ) (l : List PyVal) : (everyNth k l).Sublist l :=
  everyNthGo_sublist k l.length l

theorem extraWalk_length (ph : PyVal) (ps : List (PyVal × PyVal))
    (all : List PyVal) : (extraWalk ph ps all).length = all.length := by
  induction all generalizing ps with
  | nil => cases ps <;> rfl
  | cons it rest ih =>
    match ps with
    | [] => simpa [extraWalk] using ih []
    | (si, sr) :: sps =>
      rw [extraWalk]
      split <;> simp [ih]

theorem extraWalk_spec (ph : PyVal) (g : PyVal → PyVal) :
    ∀ (all sampled : List PyVal), sampled.Sublist all → all.Nodup →
    extraWalk ph (sampled.zip (sampled.map g)) all
      = all.map (fun a => if a ∈ sampled then g a else ph) := by
  intro all sampled hsub
  induction hsub with
  | slnil => intro _; rfl
  | @cons sampled rest a hsub ih =>
    intro hnd
    have hna : a ∉ rest := (List.nodup_cons.mp hnd).1
    have hnas : a ∉ sampled := fun hmem => hna (hsub.subset hmem)
    have hrest := (List.nodup_cons.mp hnd).2
    match hs : sampled with
    | [] => simpa [extraWalk] using ih hrest
    | s :: ss =>
      have hne : ¬ a = s := by
        rintro rfl
        exact hna (hsub.subset (List.mem_cons_self _ _))
      rw [List.map_cons, List.zip_cons_cons, extraWalk, if_neg hne, List.map_cons,
        if_neg (hs ▸ hnas)]
      rw [← List.zip_cons_cons, ← List.map_cons]
      exact congrArg _ (ih hrest)
  | @cons₂ sampled rest a hsub ih =>
    intro hnd
    have hna : a ∉ rest := (List.nodup_cons.mp hnd).1
    have hrest := (List.nodup_cons.mp hnd).2
    rw [List.map_cons, List.zip_cons_cons, extraWalk, if_pos rfl, List.map_cons,
      if_pos (List.mem_cons_self _ _), ih hrest]
    refine congrArg _ (List.map_congr_left ?_)
    intro b hb
    have hba : ¬ b = a := fun h => hna (h ▸ hb)
    by_cases hbs : b ∈ sampled <;> simp [List.mem_cons, hba, hbs]

theorem take_everyNth_drop_sublist (l : List PyVal) (fe ls k : ℕ)
    (hfels : fe ≤ ls) :
    (l.take fe ++ (everyNth k ((l.drop fe).take (ls - fe)) ++ l.drop ls)).Sublist l := by
  have hd : l.drop ls = (l.drop fe).drop (ls - fe) := by
    rw [List.drop_drop]
    congr 1
    omega
  calc (l.take fe ++ (everyNth k ((l.drop fe).take (ls - fe)) ++ l.drop ls)).Sublist
        (l.take fe ++ ((l.drop fe).take (ls - fe) ++ l.drop ls)) :=
        List.Sublist.append (List.Sublist.refl _)
          (List.Sublist.append (everyNth_sublist _ _) (List.Sublist.refl _))
    _ = l := by rw [hd, List.take_append_drop, List.take_append_drop]

theorem sampledItemsOf_sublist (level : ConstraintLevel) (items : List PyVal) :
    (sampledItemsOf level items).Sublist items := by
  rw [sampledItemsOf]
  split
  · exact List.Sublist.refl _
  · rw [List.append_assoc]
    exact take_everyNth_drop_sublist items
      (firstEndOf (sampleSizeOf level items.length))
      (lastStartOf items.length (sampleSizeOf level items.length))
      (strideOf items.length (sampleSizeOf level items.length))
      (le_max_left _ _)

theorem length_processAdaptiveSampling (f : PyVal → Option PyVal)
    (level : ConstraintLevel) (items : List PyVal) :
    (processAdaptiveSampling f level items).length = items.length := by
  rw [processAdaptiveSampling, extrapolateResults]
  split
  · rename_i hlen
    rw [length_processSequential, hlen]
  · exact extraWalk_length _ _ _

/-- The value-level characterisation of an adaptive-sampling run over
pairwise-distinct items: items whose value was sampled get the callback's
result, the others get the conservative placeholder. -/
theorem processAdaptiveSampling_nodup (f : PyVal → Option PyVal)
    (level : ConstraintLevel) (items : List PyVal) (hnd : items.Nodup) :
    processAdaptiveSampling f level items
      = items.map (fun it =>
          if it ∈ sampledItemsOf level items
          then (f it).getD PyVal.vnone
          else placeholderOf (processSequential f (sampledItemsOf level items))) := by
  have hsub := sampledItemsOf_sublist level items
  rw [processAdaptiveSampling, extrapolateResults]
  split
  · rename_i hlen
    have heq : sampledItemsOf level items = items := hsub.eq_of_length hlen
    rw [heq, processSequential_eq_map]
    apply List.map_congr_left
    intro it hit
    rw [if_pos hit]
  · rw [processSequential_eq_map]
    exact extraWalk_spec _ _ items (sampledItemsOf level items) hsub hnd

theorem lookupKey_append_self (cache : List (String × PyVal)) (k : String)
    (r : PyVal) (h : lookupKey cache k = Option.none) :
    lookupKey (cache ++ [(k, r)]) k = Option.some r := by
  induction cache with
  | nil => simp [lookupKey]
  | cons p rest ih =>
    obtain ⟨k2, v2⟩ := p
    rw [List.cons_append, lookupKey]
    rw [lookupKey] at h
    split at h
    · exact absurd h (by simp)
    · rename_i hne
      rw [if_neg hne]
      exact ih h

theorem lookupKey_append_of_some (cache d : List (String × PyVal)) (k : String)
    (v : PyVal) (h : lookupKey cache k = Option.some v) :
    lookupKey (cache ++ d) k = Option.some v := by
  induction cache with
  | nil => simp [lookupKey] at h
  | cons p rest ih =>
    obtain ⟨k2, v2⟩ := p
    rw [List.cons_append, lookupKey]
    rw [lookupKey] at h
    split at h
    · rename_i heq
      rw [if_pos heq]
      exact h
    · rename_i hne
      rw [if_neg hne]
      exact ih h

/-- A key that already has a cache entry is never passed to the callback:
every occurrence of it hits the cache, and the cache only grows. -/
theorem not_invoked_of_cached (cb : Callback) (items : List PyVal) :
    ∀ (cache : List (String × PyVal)) (k : String),
    lookupKey cache k ≠ Option.none →
    k ∉ (processCachingAggressive cb items cache).invoked := by
  induction items with
  | nil =>
    intro cache k _
    simp [processCachingAggressive]
  | cons it rest ih =>
    intro cache k hk
    rw [processCachingAggressive]
    obtain ⟨v, hv⟩ := Option.ne_none_iff_exists'.mp hk
    split
    · exact ih cache k hk
    · rename_i hmiss
      have hne : createCacheKey it cb.name ≠ k := fun h => hk (h ▸ hmiss)
      split
      · rename_i res hres
        simp only [List.mem_cons, not_or]
        refine ⟨fun h => hne h.symm, ?_⟩
        split
        · exact ih _ k (by rw [lookupKey_append_of_some _ _ _ _ hv]; simp)
        · exact ih cache k hk
      · simp only [List.mem_cons, not_or]
        exact ⟨fun h => hne h.symm, ih cache k hk⟩

/-- While the run cannot fill the cache (initial size + item count stays
within the 1000 cap) and the callback succeeds on the items, no cache key
reaches the callback more than once: the first miss stores the result and
every later occurrence hits. -/
theorem invoked_count_le_one (cb : Callback) (items : List PyVal) :
    ∀ (cache : List (String × PyVal)),
    cache.length + items.length ≤ 1000 →
    (∀ it ∈ items, (cb.fn it).isSome) →
    ∀ k : String, (processCachingAggressive cb items cache).invoked.count k ≤ 1 := by
  induction items with
  | nil =>
    intro cache _ _ k
    simp [processCachingAggressive]
  | cons it rest ih =>
    intro cache hroom hsucc k
    have hroomr : cache.length + rest.length ≤ 999 := by
      rw [List.length_cons] at hroom
      omega
    rw [processCachingAggressive]
    split
    · exact ih cache (by omega) (fun x hx => hsucc x (List.mem_cons_of_mem _ hx)) k
    · rename_i hmiss
      split
      · rename_i res hres
        have hlt : cache.length < 1000 := by omega
        rw [if_pos hlt]
        simp only [List.count_cons, beq_iff_eq]
        by_cases hkk : createCacheKey it cb.name = k
        · have hnotin : k ∉ (processCachingAggressive cb rest
              (cache ++ [(createCacheKey it cb.name, res)])).invoked := by
            apply not_invoked_of_cached
            rw [hkk, lookupKey_append_self cache k res (hkk ▸ hmiss)]
            simp
          rw [if_pos hkk, List.count_eq_zero_of_not_mem hnotin]
        · rw [if_neg hkk, Nat.add_zero]
          have hlen : (cache ++ [(createCacheKey it cb.name, res)]).length
              + rest.length ≤ 1000 := by
            rw [List.length_append]
            simp only [List.length_singleton]
            omega
          exact ih _ hlen (fun x hx => hsucc x (List.mem_cons_of_mem _ hx)) k
      · rename_i hres
        have := hsucc it (List.mem_cons_self _ _)
        rw [hres] at this
        simp at this

/-- Once the cache holds at least 1000 entries, a run neither inserts nor
evicts: the cache is returned unchanged. -/
theorem cache_unchanged_of_full (cb : Callback) (items : List PyVal) :
    ∀ (cache : List (String × PyVal)), 1000 ≤ cache.length →
    (processCachingAggressive cb items cache).cache = cache := by
  induction items with
  | nil =>
    intro cache _
    simp [processCachingAggressive]
  | cons it rest ih =>
    intro cache hfull
    rw [processCachingAggressive]
    split
    · exact ih cache hfull
    · split
      · rw [if_neg (by omega)]
        exact ih cache hfull
      · exact ih cache hfull

/-- Processing a duplicated item yields the same result in both slots,
whatever the cache state: a hit serves the cached value twice; a fresh miss
either stores the result and the second occurrence hits it, or (cache full)
misses again and the deterministic callback recomputes the same value. -/
theorem caching_pair_eq (cb : Callback) (cache : List (String × PyVal))
    (x : PyVal) :
    ∃ v, (processCachingAggressive cb [x, x] cache).results = [v, v] := by
  rcases hl : lookupKey cache (createCacheKey x cb.name) with _ | v
  · rcases hf : cb.fn x with _ | res
    · exact ⟨PyVal.vnone, by
        simp [processCachingAggressive, hl, hf]⟩
    · refine ⟨res, ?_⟩
      by_cases hlt : cache.length < 1000
      · have hl2 := lookupKey_append_self cache (createCacheKey x cb.name) res hl
        simp [processCachingAggressive, hl, hf, if_pos hlt, hl2]
      · simp [processCachingAggressive, hl, hf, if_neg hlt]
  · exact ⟨v, by simp [processCachingAggressive, hl]⟩

/-- With the cache at (or beyond) its 1000-entry cap, a missing key misses on
every occurrence: nothing is inserted, so each duplicate re-invokes the
callback. -/
theorem full_cache_reinvoke (cb : Callback) (cache : List (String × PyVal))
    (x : PyVal) (hfull : ¬ cache.length < 1000)
    (hmiss : lookupKey cache (createCacheKey x cb.name) = Option.none) :
    (processCachingAggressive cb [x, x] cache).invoked
      = [createCacheKey x cb.name, createCacheKey x cb.name] := by
  rcases hf : cb.fn x with _ | res
  · simp [processCachingAggressive, hmiss, hf]
  · simp [processCachingAggressive, hmiss, hf, if_neg hfull]

theorem length_processCachingAggressive (cb : Callback) (items : List PyVal) :
    ∀ cache : List (String × PyVal),
    (processCachingAggressive cb items cache).results.length = items.length := by
  induction items with
  | nil =>
    intro cache
    simp [processCachingAggressive]
  | cons it rest ih =>
    intro cache
    rw [processCachingAggressive]
    split
    · simp [ih]
    · split
      · split <;> simp [ih]
      · simp [ih]

/-- The polling loop: at most `rem` polls happen; a `false` return means every
snapshot observed during the window was missing or CRITICAL; a `true` return
means some poll within the window saw a non-CRITICAL tier. -/
theorem waitLoop_spec (latest : ℕ → Option ConstraintLevel) :
    ∀ (rem t : ℕ),
    (waitLoop latest t rem).2 ≤ rem
    ∧ ((waitLoop latest t rem).1 = false →
        ∀ d, d < rem → ∀ lvl, latest (t + d) = Option.some lvl →
          lvl = ConstraintLevel.critical)
    ∧ ((waitLoop latest t rem).1 = true →
        ∃ d, d < rem ∧ ∃ lvl, latest (t + d) = Option.some lvl
          ∧ lvl ≠ ConstraintLevel.critical) := by
  intro rem
  induction rem with
  | zero =>
    intro t
    refine ⟨Nat.le_refl 0, fun _ d hd => absurd hd (Nat.not_lt_zero d), fun h => ?_⟩
    simp [waitLoop] at h
  | succ r ih =>
    intro t
    rcases hl : latest t with _ | lvl
    · simp only [waitLoop, hl]
      obtain ⟨ihb, ihf, iht⟩ := ih (t + 1)
      refine ⟨by omega, fun hfalse d hd lvl2 hlvl2 => ?_, fun htrue => ?_⟩
      · rcases d with _ | d
        · rw [Nat.add_zero] at hlvl2
          rw [hl] at hlvl2
          exact absurd hlvl2 (by simp)
        · exact ihf hfalse d (by omega) lvl2 (by rw [← hlvl2]; congr 1; omega)
      · obtain ⟨d, hd, lvl2, h1, h2⟩ := iht htrue
        exact ⟨d + 1, by omega, lvl2, by rw [← h1]; congr 1; omega, h2⟩
    · by_cases hcrit : lvl = ConstraintLevel.critical
      · simp only [waitLoop, hl, if_pos hcrit]
        obtain ⟨ihb, ihf, iht⟩ := ih (t + 1)
        refine ⟨by omega, fun hfalse d hd lvl2 hlvl2 => ?_, fun htrue => ?_⟩
        · rcases d with _ | d
          · rw [Nat.add_zero] at hlvl2
            rw [hl] at hlvl2
            cases hlvl2
            exact hcrit
          · exact ihf hfalse d (by omega) lvl2 (by rw [← hlvl2]; congr 1; omega)
        · obtain ⟨d, hd, lvl2, h1, h2⟩ := iht htrue
          exact ⟨d + 1, by omega, lvl2, by rw [← h1]; congr 1; omega, h2⟩
      · simp only [waitLoop, hl, if_neg hcrit]
        refine ⟨by omega, fun hfalse => by simp at hfalse, fun _ => ?_⟩
        exact ⟨0, by omega, lvl, by rw [Nat.add_zero]; exact hl, hcrit⟩

theorem getD_processSequential (f : PyVal → Option PyVal) (l : List PyVal)
    (i : ℕ) (h : i < l.length) :
    (processSequential f l).getD i PyVal.vnone
      = (f (l.getD i PyVal.vnone)).getD PyVal.vnone := by
  rw [List.getD_eq_getElem?_getD, getElem?_processSequential,
    List.getD_eq_getElem?_getD, List.getElem?_eq_getElem h]
  simp

/-!
The claims
-/

/-- Claim C1's description of the classifier, written from the spec's words:
`cpu_ratio = cpu_percent / max_cpu_percent` (0 when the max is 0/unset),
`mem_ratio = memory_percent / max_memory_percent` (0 when the max is
0/unset), `r = max(cpu_ratio, mem_ratio)`, then
r<0.5→None, r<0.7→Low, r<0.9→Medium, r<1.1→High, else→Critical. -/
def classifySpec (cpu mem maxCpu maxMem : ℚ) : ConstraintLevel :=
  let cpuPart : ℚ := if maxCpu = 0 then 0 else cpu / maxCpu
  let memPart : ℚ := if maxMem = 0 then 0 else mem / maxMem
  let r := max cpuPart memPart
  if r < 1/2 then .none
  else if r < 7/10 then .low
  else if r < 9/10 then .medium
  else if r < 11/10 then .high
  else .critical

/-- C1: for every snapshot and constraints, `Classify` computes the ratios
(0 when the corresponding max is 0/unset), takes their maximum `r`, and maps
it through the 0.5/0.7/0.9/1.1 breakpoints; in particular a snapshot with
cpu% = mem% = 0 classifies as None. -/
theorem C1_classify (c : ResourceConstraints) (m : ResourceMetrics) :
    c.get_constraint_level m
      = classifySpec m.cpu_percent m.memory_percent
          c.max_cpu_percent c.max_memory_percent
    ∧ (m.cpu_percent = 0 → m.memory_percent = 0 →
        c.get_constraint_level m = ConstraintLevel.none) := by
  constructor
  · simp only [ResourceConstraints.get_constraint_level, classifySpec, ite_not]
  · intro h1 h2
    simp only [ResourceConstraints.get_constraint_level, h1, h2, zero_div, ite_self,
      max_self]
    norm_num

/-- Witness for C1 at a concrete idle snapshot and the default constraints. -/
theorem C1_classify_witness :
    ((⟨0, 0, 0, 0, 0, 0, 0, 0, 0, 0, 0, 0, 0⟩ : ResourceMetrics).cpu_percent = 0)
    ∧ defaultConstraints.get_constraint_level
        ⟨0, 0, 0, 0, 0, 0, 0, 0, 0, 0, 0, 0, 0⟩ = ConstraintLevel.none :=
  ⟨rfl, (C1_classify defaultConstraints ⟨0, 0, 0, 0, 0, 0, 0, 0, 0, 0, 0, 0, 0⟩).2
    rfl rfl⟩

/-- Claim C2's Select table, written from the spec's words. -/
def selectSpec (tier : ConstraintLevel) (pendingCount : ℕ) : OptimizationStrategy :=
  match tier with
  | .none => if pendingCount > 10 then .parallel_limited else .batch_optimized
  | .low => .batch_optimized
  | .medium => .skill_priority
  | .high => if pendingCount > 100 then .adaptive_sampling else .caching_aggressive
  | .critical => .sequential

/-- C2: strategy selection implements exactly the claimed per-tier table, and
— being a pure function of its inputs — returns identical results on
identical inputs. -/
theorem C2_select (c : ResourceConstraints) (m : ResourceMetrics) (n : ℕ) :
    select_optimal_strategy c m n = selectSpec (c.get_constraint_level m) n
    ∧ select_optimal_strategy c m n = select_optimal_strategy c m n := by
  refine ⟨?_, rfl⟩
  unfold select_optimal_strategy selectSpec
  generalize c.get_constraint_level m = lvl
  cases lvl <;> rfl

/-- Counterexample to C4: the claimed chain `BatchSize(Medium) ≥
BatchSize(High)` fails at `base = 5` (Medium gives 5, High gives
`max(5 // 2, 10) = 10`), and `BatchSize(Low) ≥ BatchSize(Medium)` fails when
`max_batch_size < base` (base = 100, maxBatch = 50: Low gives 50, Medium
gives 100). -/
theorem C4_counterexample :
    ¬ (batchSizeForLevel ConstraintLevel.high 5 1000
        ≤ batchSizeForLevel ConstraintLevel.medium 5 1000)
    ∧ ¬ (batchSizeForLevel ConstraintLevel.medium 100 50
        ≤ batchSizeForLevel ConstraintLevel.low 100 50) := by
  constructor <;> norm_num [batchSizeForLevel]

/-- C4 (amended): for a fixed base batch size and fixed `max_batch_size`, the
per-tier batch size (None→min(base·2, maxBatch), Low→min(base·1.5, maxBatch),
Medium→base, High→max(base // 2, 10), Critical→max(base // 4, 1)) is
monotonically non-increasing as the tier worsens, provided `base ≥ 10` and
`max_batch_size ≥ base`; without those bounds the chain can fail (see the
counterexample). -/
theorem C4_amended (base maxBatch : ℕ) (hbase : 10 ≤ base)
    (hcap : base ≤ maxBatch) :
    batchSizeForLevel ConstraintLevel.low base maxBatch
        ≤ batchSizeForLevel ConstraintLevel.none base maxBatch
    ∧ batchSizeForLevel ConstraintLevel.medium base maxBatch
        ≤ batchSizeForLevel ConstraintLevel.low base maxBatch
    ∧ batchSizeForLevel ConstraintLevel.high base maxBatch
        ≤ batchSizeForLevel ConstraintLevel.medium base maxBatch
    ∧ batchSizeForLevel ConstraintLevel.critical base maxBatch
        ≤ batchSizeForLevel ConstraintLevel.high base maxBatch := by
  have hb0 : (0 : ℚ) ≤ (base : ℚ) := Nat.cast_nonneg base
  have hbM : (base : ℚ) ≤ (maxBatch : ℚ) := Nat.cast_le.mpr hcap
  have hb10 : (10 : ℚ) ≤ (base : ℚ) := by exact_mod_cast hbase
  refine ⟨?_, ?_, ?_, ?_⟩
  · simp only [batchSizeForLevel]
    exact min_le_min (by linarith) (le_refl _)
  · simp only [batchSizeForLevel]
    exact le_min (by linarith) hbM
  · simp only [batchSizeForLevel]
    apply max_le
    · exact_mod_cast Nat.div_le_self base 2
    · exact hb10
  · simp only [batchSizeForLevel]
    apply max_le
    · exact le_max_of_le_left
        (by exact_mod_cast Nat.div_le_div_left (by norm_num) (by norm_num))
    · exact le_max_of_le_right (by norm_num)

/-- Witness for C4 (amended) at `base = 10`, `maxBatch = 1000`. -/
theorem C4_amended_witness :
    (10 ≤ 10 ∧ 10 ≤ 1000)
    ∧ batchSizeForLevel ConstraintLevel.low 10 1000
        ≤ batchSizeForLevel ConstraintLevel.none 10 1000
    ∧ batchSizeForLevel ConstraintLevel.medium 10 1000
        ≤ batchSizeForLevel ConstraintLevel.low 10 1000
    ∧ batchSizeForLevel ConstraintLevel.high 10 1000
        ≤ batchSizeForLevel ConstraintLevel.medium 10 1000
    ∧ batchSizeForLevel ConstraintLevel.critical 10 1000
        ≤ batchSizeForLevel ConstraintLevel.high 10 1000 :=
  ⟨⟨by norm_num, by norm_num⟩, C4_amended 10 1000 (by norm_num) (by norm_num)⟩

/-- Counterexample to C3: under BatchOptimized the callback receives each
chunk and its return value is `extend`ed if it is a list, else appended as a
single element — so a callback that returns one non-list value per chunk
yields one result per chunk, not one per item: 2 items in one chunk of size 2
produce a result list of length 1. -/
theorem C3_counterexample :
    ¬ ((processBatchOptimized (fun _ => Option.some (PyVal.vnat 7)) 2
          [PyVal.vnat 0, PyVal.vnat 1]).length
        = ([PyVal.vnat 0, PyVal.vnat 1] : List PyVal).length) := by
  decide

/-- C3 (amended): for Sequential, ParallelLimited, SkillPriority,
OffloadExternal, CachingAggressive and AdaptiveSampling the result list has
exactly the input's length, and for the per-item strategies Sequential and
ParallelLimited slot `i` holds exactly the callback's outcome on item `i`
(its result, or `None` if it raised).  For BatchOptimized the length is
preserved provided the callback returns, for every chunk, a list with one
result per chunk item; a non-list-returning callback instead yields one
result per chunk (see the counterexample). -/
theorem C3_amended (f : PyVal → Option PyVal) (g : List PyVal → Option PyVal)
    (cb : Callback) (concurrency bs : ℕ) (level : ConstraintLevel)
    (cache : List (String × PyVal)) (items : List PyVal) :
    (processSequential f items).length = items.length
    ∧ (processParallelLimited f concurrency items).length = items.length
    ∧ (processSkillPriority f items).length = items.length
    ∧ (processOffloadExternal f items).length = items.length
    ∧ (processCachingAggressive cb items cache).results.length = items.length
    ∧ (processAdaptiveSampling f level items).length = items.length
    ∧ (∀ i, i < items.length →
        (processSequential f items).getD i PyVal.vnone
          = (f (items.getD i PyVal.vnone)).getD PyVal.vnone
        ∧ (processParallelLimited f concurrency items).getD i PyVal.vnone
          = (f (items.getD i PyVal.vnone)).getD PyVal.vnone)
    ∧ (1 ≤ bs →
        (∀ c ∈ chunkList bs items,
          ∃ l, g c = Option.some (PyVal.vlist l) ∧ l.length = c.length) →
        (processBatchOptimized g bs items).length = items.length) := by
  refine ⟨length_processSequential f items,
    by rw [processParallelLimited_eq]; exact length_processSequential f items,
    by rw [processSkillPriority_eq]; exact length_processSequential f items,
    length_processSequential f items,
    length_processCachingAggressive cb items cache,
    length_processAdaptiveSampling f level items,
    fun i hi => ⟨getD_processSequential f items i hi,
      by rw [processParallelLimited_eq]; exact getD_processSequential f items i hi⟩,
    fun hbs hg => ?_⟩
  rw [processBatchOptimized]
  apply chunkList_flatMap_length _ bs hbs items
  intro c hc
  obtain ⟨l, hgl, hlen⟩ := hg c hc
  simp only [chunkResult, hgl]
  simp [hlen]

/-- Concrete inputs for the C3 witness. -/
def itemsW : List PyVal := [PyVal.vnat 0, PyVal.vnat 1, PyVal.vnat 2]

/-- A per-item callback for witnesses: the identity, always succeeding. -/
def idCallback : PyVal → Option PyVal := fun v => Option.some v

/-- A per-chunk callback returning one result per chunk item. -/
def chunkCallback : List PyVal → Option PyVal :=
  fun c => Option.some (PyVal.vlist (List.replicate c.length 5))

/-- Witness for C3 (amended) on three items, chunk size 2. -/
theorem C3_amended_witness :
    ((1 : ℕ) ≤ 2
      ∧ ∀ c ∈ chunkList 2 itemsW,
          ∃ l, chunkCallback c = Option.some (PyVal.vlist l) ∧ l.length = c.length)
    ∧ (processBatchOptimized chunkCallback 2 itemsW).length = itemsW.length
    ∧ ((0 : ℕ) < itemsW.length
      ∧ (processSequential idCallback itemsW).getD 0 PyVal.vnone
          = (idCallback (itemsW.getD 0 PyVal.vnone)).getD PyVal.vnone) := by
  have hg : ∀ c ∈ chunkList 2 itemsW,
      ∃ l, chunkCallback c = Option.some (PyVal.vlist l) ∧ l.length = c.length :=
    fun c _ => ⟨List.replicate c.length 5, rfl, by simp⟩
  refine ⟨⟨by norm_num, hg⟩, ?_, by decide, ?_⟩
  · exact (C3_amended idCallback chunkCallback ⟨"f", idCallback⟩ 4 2
      ConstraintLevel.high [] itemsW).2.2.2.2.2.2.2 (by norm_num) hg
  · exact ((C3_amended idCallback chunkCallback ⟨"f", idCallback⟩ 4 2
      ConstraintLevel.high [] itemsW).2.2.2.2.2.2.1 0 (by decide)).1

/-- The 150 pairwise-distinct work items 0, 1, …, 149 of the C5 scenario. -/
def items150 : List PyVal := (List.range 150).map PyVal.vnat

set_option maxRecDepth 8000 in
/-- Counterexample to C5: at tier High over 150 items the sample ratio 0.25
does give `sample_size = 37`, but the stratified selection
(first 7) + (strided middle, 28) + (last 7) actually contains 42 items, so 42
slots — not 37 — receive a real processed result. -/
theorem C5_counterexample :
    sampleSizeOf ConstraintLevel.high 150 = 37
    ∧ ¬ (((processAdaptiveSampling idCallback ConstraintLevel.high items150).filter
          (fun v => !(v == PyVal.vnone))).length = 37) := by
  constructor
  · decide
  · decide

set_option maxRecDepth 8000 in
/-- C5 (amended): running AdaptiveSampling on the 150 distinct items at tier
High uses sample ratio 0.25 and computes `sample_size = 37`, but the
stratified selection picks 42 items: exactly 42 of the 150 output slots carry
a real processed result, the other 108 carry the conservative placeholder,
and the output length is 150. -/
theorem C5_amended :
    sampleSizeOf ConstraintLevel.high 150 = 37
    ∧ (sampledItemsOf ConstraintLevel.high items150).length = 42
    ∧ ((processAdaptiveSampling idCallback ConstraintLevel.high items150).filter
        (fun v => !(v == PyVal.vnone))).length = 42
    ∧ ((processAdaptiveSampling idCallback ConstraintLevel.high items150).filter
        (fun v => v == PyVal.vnone)).length = 108
    ∧ (processAdaptiveSampling idCallback ConstraintLevel.high items150).length
        = 150 := by
  refine ⟨by decide, by decide, by decide, by decide, by decide⟩

/-- 20 items for the C6 counterexample: pairwise distinct except that the
items at indices 3 and 4 are both `99`.  At the default sampling ratio 0.5
the stratified sampler selects indices 0, 1 (first block), 2, 4, 6, …, 16
(strided middle) and 18, 19 (last block) — index 4 is sampled, index 3 is
not. -/
def items20 : List PyVal :=
  [PyVal.vnat 0, PyVal.vnat 1, PyVal.vnat 2, PyVal.vnat 99, PyVal.vnat 99,
   PyVal.vnat 5, PyVal.vnat 6, PyVal.vnat 7, PyVal.vnat 8, PyVal.vnat 9,
   PyVal.vnat 10, PyVal.vnat 11, PyVal.vnat 12, PyVal.vnat 13, PyVal.vnat 14,
   PyVal.vnat 15, PyVal.vnat 16, PyVal.vnat 17, PyVal.vnat 18, PyVal.vnat 19]

/-- Counterexample to C6: the extrapolation walk matches sampled items by
value (`==`), not by position, so duplicates derail it.  Here the item at
index 4 (value 99) is sampled and the callback computes `99` for it, but its
unsampled duplicate at index 3 consumes that sampled result during the walk
and the genuinely sampled index 4 receives the placeholder `None` instead of
the callback's result. -/
theorem C6_counterexample :
    items20.getD 4 PyVal.vnone = PyVal.vnat 99
    ∧ PyVal.vnat 99 ∈ sampledItemsOf ConstraintLevel.medium items20
    ∧ (idCallback (PyVal.vnat 99)).getD PyVal.vnone = PyVal.vnat 99
    ∧ (processAdaptiveSampling idCallback ConstraintLevel.medium items20).getD 4
        PyVal.vnone = PyVal.vnone
    ∧ PyVal.vnone ≠ PyVal.vnat 99 := by
  decide

/-- C6 (amended): for every AdaptiveSampling run over pairwise-distinct
items, every index whose item is in the sample receives exactly the result
the callback computed for that item (`None` if it raised), and every other
index receives the conservative placeholder — the empty list if the sample's
first result is a list, else nil.  (With duplicate items the value-based
extrapolation walk can misassign results; see the counterexample.) -/
theorem C6_amended (f : PyVal → Option PyVal) (level : ConstraintLevel)
    (items : List PyVal) (hnd : items.Nodup) :
    processAdaptiveSampling f level items
      = items.map (fun it =>
          if it ∈ sampledItemsOf level items
          then (f it).getD PyVal.vnone
          else placeholderOf (processSequential f (sampledItemsOf level items))) :=
  processAdaptiveSampling_nodup f level items hnd

/-- Witness for C6 (amended) on three distinct items at tier High. -/
theorem C6_amended_witness :
    itemsW.Nodup
    ∧ processAdaptiveSampling idCallback ConstraintLevel.high itemsW
      = itemsW.map (fun it =>
          if it ∈ sampledItemsOf ConstraintLevel.high itemsW
          then (idCallback it).getD PyVal.vnone
          else placeholderOf (processSequential idCallback
            (sampledItemsOf ConstraintLevel.high itemsW))) :=
  ⟨by decide, C6_amended idCallback ConstraintLevel.high itemsW (by decide)⟩

/-- Counterexample to C7: only successful results are cached.  A pure
(deterministic) callback that raises on an item is invoked again for every
duplicate of that item even though the cache holds fewer than 1000 entries —
here the single distinct key is passed to the callback twice and the cache
stays empty. -/
theorem C7_counterexample :
    (processCachingAggressive ⟨"f", fun _ => Option.none⟩
        [PyVal.vnat 0, PyVal.vnat 0] []).invoked.count
      (createCacheKey (PyVal.vnat 0) "f") = 2
    ∧ (processCachingAggressive ⟨"f", fun _ => Option.none⟩
        [PyVal.vnat 0, PyVal.vnat 0] []).cache.length = 0 := by
  decide

/-- C7 (amended): under CachingAggressive with a pure callback, (i) processing
the same item twice yields identical results in both slots; (ii) on a cache
hit the callback is not invoked; (iii) the callback is invoked at most once
per distinct item key provided it succeeds on the items and the run cannot
fill the cache (initial size plus item count within the 1000 cap) — a raising
call is never cached, so duplicates of a failing item re-invoke the callback
(see the counterexample); (iv) once the cache holds 1000 entries nothing is
inserted (and nothing evicted), so (v) every subsequent miss re-invokes the
callback. -/
theorem C7_amended (cb : Callback) (cache : List (String × PyVal)) (x : PyVal)
    (items : List PyVal) :
    (∃ v, (processCachingAggressive cb [x, x] cache).results = [v, v])
    ∧ (∀ v, lookupKey cache (createCacheKey x cb.name) = Option.some v →
        processCachingAggressive cb [x] cache
          = ⟨[v], cache, []⟩)
    ∧ (cache.length + items.length ≤ 1000 →
        (∀ it ∈ items, (cb.fn it).isSome) →
        ∀ k : String,
          (processCachingAggressive cb items cache).invoked.count k ≤ 1)
    ∧ (1000 ≤ cache.length →
        (processCachingAggressive cb items cache).cache = cache)
    ∧ (1000 ≤ cache.length →
        lookupKey cache (createCacheKey x cb.name) = Option.none →
        (processCachingAggressive cb [x, x] cache).invoked
          = [createCacheKey x cb.name, createCacheKey x cb.name]) := by
  refine ⟨caching_pair_eq cb cache x, fun v hv => ?_,
    fun hroom hsucc k => invoked_count_le_one cb items cache hroom hsucc k,
    fun hfull => cache_unchanged_of_full cb items cache hfull,
    fun hfull hmiss => full_cache_reinvoke cb cache x (by omega) hmiss⟩
  simp [processCachingAggressive, hv]

/-- The always-succeeding identity callback packaged with a `__name__`. -/
def cbW : Callback := ⟨"f", idCallback⟩

/-- A duplicated item pair. -/
def pairItems : List PyVal := [PyVal.vnat 0, PyVal.vnat 0]

/-- A one-entry cache already holding a value for `pairItems`' key. -/
def cacheHit : List (String × PyVal) :=
  [(createCacheKey (PyVal.vnat 0) "f", PyVal.vnat 9)]

/-- A cache at the 1000-entry cap, with keys disjoint from `pairItems`'. -/
def cacheFull : List (String × PyVal) :=
  (List.range 1000).map (fun i => (toString i, PyVal.vnone))

set_option maxRecDepth 8000 in
/-- Witness for C7 (amended): a cache hit served without invocation, an
at-most-once run on a duplicated item with room in the cache, and a full
cache left unchanged while re-invoking on every miss. -/
theorem C7_amended_witness :
    (lookupKey cacheHit (createCacheKey (PyVal.vnat 0) "f")
        = Option.some (PyVal.vnat 9)
      ∧ processCachingAggressive cbW [PyVal.vnat 0] cacheHit
          = ⟨[PyVal.vnat 9], cacheHit, []⟩)
    ∧ (([] : List (String × PyVal)).length + pairItems.length ≤ 1000
      ∧ ∀ k : String,
          (processCachingAggressive cbW pairItems []).invoked.count k ≤ 1)
    ∧ (1000 ≤ cacheFull.length
      ∧ (processCachingAggressive cbW pairItems cacheFull).cache = cacheFull)
    ∧ (lookupKey cacheFull (createCacheKey (PyVal.vnat 0) "f") = Option.none
      ∧ (processCachingAggressive cbW pairItems cacheFull).invoked
          = [createCacheKey (PyVal.vnat 0) "f", createCacheKey (PyVal.vnat 0) "f"]) :=
  ⟨⟨by decide, (C7_amended cbW cacheHit (PyVal.vnat 0) pairItems).2.1
      (PyVal.vnat 9) (by decide)⟩,
    ⟨by decide, (C7_amended cbW [] (PyVal.vnat 0) pairItems).2.2.1
      (by decide) (by decide)⟩,
    ⟨by decide, (C7_amended cbW cacheFull (PyVal.vnat 0) pairItems).2.2.2.1
      (by decide)⟩,
    ⟨by decide, (C7_amended cbW cacheFull (PyVal.vnat 0) pairItems).2.2.2.2
      (by decide) (by decide)⟩⟩

theorem chunkListGo_allfail (g : List PyVal → Option PyVal) (bs : ℕ)
    (hbs : 1 ≤ bs) :
    ∀ (fuel : ℕ) (l : List PyVal), l.length ≤ fuel →
    (∀ c ∈ chunkListGo bs fuel l, g c = Option.none) →
    (chunkListGo bs fuel l).flatMap (chunkResult g)
      = List.replicate l.length PyVal.vnone := by
  intro fuel
  induction fuel with
  | zero =>
    intro l hlen _
    have hnil : l = [] := List.eq_nil_of_length_eq_zero (Nat.le_zero.mp hlen)
    subst hnil
    simp [chunkListGo]
  | succ f ih =>
    intro l hlen hfail
    cases l with
    | nil => simp [chunkListGo]
    | cons x xs =>
      simp only [chunkListGo] at hfail ⊢
      have h1 : chunkResult g ((x :: xs).take bs)
          = List.replicate ((x :: xs).take bs).length PyVal.vnone := by
        simp only [chunkResult, hfail _ (List.mem_cons_self _ _)]
      rw [List.flatMap_cons, h1,
        ih ((x :: xs).drop bs)
          (by simp only [List.length_drop, List.length_cons] at hlen ⊢; omega)
          (fun c hc => hfail c (List.mem_cons_of_mem _ hc)),
        ← List.replicate_add]
      congr 1
      simp only [List.length_take, List.length_drop, List.length_cons]
      omega

/-- All-chunks-fail form of `_process_batch_optimized`: when the callback
raises on every chunk, each chunk contributes one `None` per item and the run
still returns one slot per input item. -/
theorem processBatchOptimized_allfail (g : List PyVal → Option PyVal)
    (bs : ℕ) (hbs : 1 ≤ bs) (items : List PyVal)
    (hfail : ∀ c ∈ chunkList bs items, g c = Option.none) :
    processBatchOptimized g bs items
      = List.replicate items.length PyVal.vnone := by
  rw [processBatchOptimized, chunkList, if_neg (by omega)]
  rw [chunkList, if_neg (by omega)] at hfail
  exact chunkListGo_allfail g bs hbs items.length items (Nat.le_refl _) hfail

theorem getD_map_pyval (fn : PyVal → PyVal) (l : List PyVal) (i : ℕ)
    (h : i < l.length) :
    (l.map fn).getD i PyVal.vnone = fn (l.getD i PyVal.vnone) := by
  rw [List.getD_eq_getElem?_getD, List.getElem?_map, List.getD_eq_getElem?_getD,
    List.getElem?_eq_getElem h]
  simp

/-- C8: a per-item failure never aborts a run and is not aggregated into a
run-level error, for every strategy (each returns a plain result list with no
error channel).  For the per-item strategies — Sequential, ParallelLimited,
SkillPriority and OffloadExternal — the output still has one slot per item,
the failing item's slot is `None`, and every other slot holds exactly the
callback's outcome for its own item, so all remaining items are still
processed.  For CachingAggressive the output has one slot per item, and a
miss whose call raises yields a `None` slot, caches nothing, and leaves the
remaining items processed exactly as they would be without the failing item.
For AdaptiveSampling the output has one slot per item, and (over distinct
items) each slot is fully characterised: a sampled item whose call raises
gets `None`, every other sampled item gets its own result, non-sampled items
get the placeholder.  For BatchOptimized the run is the in-order
concatenation of the per-chunk outcomes — chunks after a failing chunk are
still processed — a raising chunk contributes one `None` per chunk item, a
mixed run (each chunk either raises or returns one result per item) keeps one
slot per item, and even an all-chunks-raising run returns a full list of
`None`s rather than an error. -/
theorem C8_failure_isolated (f : PyVal → Option PyVal)
    (g : List PyVal → Option PyVal) (cb : Callback) (concurrency bs : ℕ)
    (level : ConstraintLevel) (cache : List (String × PyVal))
    (items rest : List PyVal) (x : PyVal)
    (i : ℕ) (hi : i < items.length)
    (hfail : f (items.getD i PyVal.vnone) = Option.none) :
    ((processSequential f items).length = items.length
      ∧ (processSequential f items).getD i PyVal.vnone = PyVal.vnone
      ∧ ∀ j, j < items.length →
          (processSequential f items).getD j PyVal.vnone
            = (f (items.getD j PyVal.vnone)).getD PyVal.vnone)
    ∧ ((processParallelLimited f concurrency items).length = items.length
      ∧ (processParallelLimited f concurrency items).getD i PyVal.vnone
          = PyVal.vnone
      ∧ ∀ j, j < items.length →
          (processParallelLimited f concurrency items).getD j PyVal.vnone
            = (f (items.getD j PyVal.vnone)).getD PyVal.vnone)
    ∧ ((processSkillPriority f items).length = items.length
      ∧ (processSkillPriority f items).getD i PyVal.vnone = PyVal.vnone
      ∧ ∀ j, j < items.length →
          (processSkillPriority f items).getD j PyVal.vnone
            = (f (items.getD j PyVal.vnone)).getD PyVal.vnone)
    ∧ ((processOffloadExternal f items).length = items.length
      ∧ (processOffloadExternal f items).getD i PyVal.vnone = PyVal.vnone
      ∧ ∀ j, j < items.length →
          (processOffloadExternal f items).getD j PyVal.vnone
            = (f (items.getD j PyVal.vnone)).getD PyVal.vnone)
    ∧ ((processCachingAggressive cb items cache).results.length = items.length
      ∧ (lookupKey cache (createCacheKey x cb.name) = Option.none →
          cb.fn x = Option.none →
          processCachingAggressive cb (x :: rest) cache
            = ⟨PyVal.vnone :: (processCachingAggressive cb rest cache).results,
                (processCachingAggressive cb rest cache).cache,
                createCacheKey x cb.name
                  :: (processCachingAggressive cb rest cache).invoked⟩))
    ∧ ((processAdaptiveSampling f level items).length = items.length
      ∧ (items.Nodup → ∀ j, j < items.length →
          (processAdaptiveSampling f level items).getD j PyVal.vnone
            = if items.getD j PyVal.vnone ∈ sampledItemsOf level items
              then (f (items.getD j PyVal.vnone)).getD PyVal.vnone
              else placeholderOf
                (processSequential f (sampledItemsOf level items))))
    ∧ (processBatchOptimized g bs items
        = (chunkList bs items).flatMap (chunkResult g)
      ∧ (∀ c : List PyVal, g c = Option.none →
          chunkResult g c = List.replicate c.length PyVal.vnone)
      ∧ (1 ≤ bs →
          (∀ c ∈ chunkList bs items, g c = Option.none
            ∨ ∃ l, g c = Option.some (PyVal.vlist l) ∧ l.length = c.length) →
          (processBatchOptimized g bs items).length = items.length)
      ∧ (1 ≤ bs → (∀ c ∈ chunkList bs items, g c = Option.none) →
          processBatchOptimized g bs items
            = List.replicate items.length PyVal.vnone)) := by
  have hseqlen := length_processSequential f items
  have hseq3 : ∀ j, j < items.length →
      (processSequential f items).getD j PyVal.vnone
        = (f (items.getD j PyVal.vnone)).getD PyVal.vnone :=
    fun j hj => getD_processSequential f items j hj
  have hseqslot : (processSequential f items).getD i PyVal.vnone = PyVal.vnone := by
    rw [getD_processSequential f items i hi, hfail]
    rfl
  refine ⟨⟨hseqlen, hseqslot, hseq3⟩, ⟨?_, ?_, ?_⟩, ⟨?_, ?_, ?_⟩,
    ⟨hseqlen, hseqslot, hseq3⟩,
    ⟨length_processCachingAggressive cb items cache, ?_⟩,
    ⟨length_processAdaptiveSampling f level items, ?_⟩,
    rfl, ?_, ?_,
    fun hbs hall => processBatchOptimized_allfail g bs hbs items hall⟩
  · rw [processParallelLimited_eq]
    exact hseqlen
  · rw [processParallelLimited_eq]
    exact hseqslot
  · intro j hj
    rw [processParallelLimited_eq]
    exact hseq3 j hj
  · rw [processSkillPriority_eq]
    exact hseqlen
  · rw [processSkillPriority_eq]
    exact hseqslot
  · intro j hj
    rw [processSkillPriority_eq]
    exact hseq3 j hj
  · intro hmiss hfx
    simp [processCachingAggressive, hmiss, hfx]
  · intro hnd j hj
    rw [processAdaptiveSampling_nodup f level items hnd]
    exact getD_map_pyval _ items j hj
  · intro c hc
    simp only [chunkResult, hc]
  · intro hbs hmixed
    rw [processBatchOptimized]
    apply chunkList_flatMap_length _ bs hbs items
    intro c hc
    rcases hmixed c hc with hfl | ⟨l, hgl, hlen⟩
    · simp only [chunkResult, hfl, List.length_replicate]
    · simp only [chunkResult, hgl]
      simp [hlen]

/-- A callback that raises exactly on the item `1`. -/
def failAtOne : PyVal → Option PyVal :=
  fun v => if v = PyVal.vnat 1 then Option.none else Option.some v

/-- A per-chunk callback that always raises. -/
def chunkFail : List PyVal → Option PyVal := fun _ => Option.none

/-- A per-item callback that always raises, packaged with a `__name__`. -/
def cbFailAll : Callback := ⟨"f", fun _ => Option.none⟩

/-- A per-chunk callback that raises on the chunk starting with item `0` and
returns one result per chunk item on every other chunk. -/
def gMixed : List PyVal → Option PyVal :=
  fun c => if c.getD 0 PyVal.vnone = PyVal.vnat 0 then Option.none
    else Option.some (PyVal.vlist (List.replicate c.length 5))

/-- Witness for C8 on three items with a per-item failure at index 1: the
sequential, skill-priority, caching, adaptive-sampling and batch clauses are
all exercised, including a mixed batch run whose first chunk raises while the
second succeeds. -/
theorem C8_failure_isolated_witness :
    ((1 : ℕ) < itemsW.length
      ∧ failAtOne (itemsW.getD 1 PyVal.vnone) = Option.none)
    ∧ (processSequential failAtOne itemsW).getD 1 PyVal.vnone = PyVal.vnone
    ∧ (processSequential failAtOne itemsW).length = itemsW.length
    ∧ (processSkillPriority failAtOne itemsW).getD 1 PyVal.vnone = PyVal.vnone
    ∧ (lookupKey [] (createCacheKey (PyVal.vnat 0) cbFailAll.name) = Option.none
      ∧ cbFailAll.fn (PyVal.vnat 0) = Option.none
      ∧ processCachingAggressive cbFailAll [PyVal.vnat 0, PyVal.vnat 1] []
          = ⟨PyVal.vnone
                :: (processCachingAggressive cbFailAll [PyVal.vnat 1] []).results,
              (processCachingAggressive cbFailAll [PyVal.vnat 1] []).cache,
              createCacheKey (PyVal.vnat 0) cbFailAll.name
                :: (processCachingAggressive cbFailAll [PyVal.vnat 1] []).invoked⟩)
    ∧ (itemsW.Nodup
      ∧ (processAdaptiveSampling failAtOne ConstraintLevel.high itemsW).getD 1
            PyVal.vnone
          = if itemsW.getD 1 PyVal.vnone
                ∈ sampledItemsOf ConstraintLevel.high itemsW
            then (failAtOne (itemsW.getD 1 PyVal.vnone)).getD PyVal.vnone
            else placeholderOf (processSequential failAtOne
              (sampledItemsOf ConstraintLevel.high itemsW)))
    ∧ (processBatchOptimized gMixed 2 itemsW).length = itemsW.length
    ∧ processBatchOptimized gMixed 2 itemsW
        = [PyVal.vnone, PyVal.vnone, PyVal.vnat 5]
    ∧ processBatchOptimized chunkFail 2 itemsW
        = List.replicate itemsW.length PyVal.vnone := by
  have hmixed : ∀ c ∈ chunkList 2 itemsW, gMixed c = Option.none
      ∨ ∃ l, gMixed c = Option.some (PyVal.vlist l) ∧ l.length = c.length := by
    intro c hc
    rw [show chunkList 2 itemsW
        = [[PyVal.vnat 0, PyVal.vnat 1], [PyVal.vnat 2]] from by decide] at hc
    rcases List.mem_cons.mp hc with h | h
    · subst h
      exact Or.inl (by decide)
    · rw [List.mem_singleton.mp h]
      exact Or.inr ⟨List.replicate 1 5, by decide, by decide⟩
  refine ⟨⟨by decide, by decide⟩,
    ((C8_failure_isolated failAtOne gMixed cbFailAll 4 2 ConstraintLevel.high []
      itemsW [PyVal.vnat 1] (PyVal.vnat 0) 1 (by decide) (by decide)).1).2.1,
    ((C8_failure_isolated failAtOne gMixed cbFailAll 4 2 ConstraintLevel.high []
      itemsW [PyVal.vnat 1] (PyVal.vnat 0) 1 (by decide) (by decide)).1).1,
    ((C8_failure_isolated failAtOne gMixed cbFailAll 4 2 ConstraintLevel.high []
      itemsW [PyVal.vnat 1] (PyVal.vnat 0) 1 (by decide) (by decide)).2.2.1).2.1,
    ⟨by decide, by decide,
      ((C8_failure_isolated failAtOne gMixed cbFailAll 4 2 ConstraintLevel.high []
        itemsW [PyVal.vnat 1] (PyVal.vnat 0) 1 (by decide)
        (by decide)).2.2.2.2.1).2 (by decide) (by decide)⟩,
    ⟨by decide,
      ((C8_failure_isolated failAtOne gMixed cbFailAll 4 2 ConstraintLevel.high []
        itemsW [PyVal.vnat 1] (PyVal.vnat 0) 1 (by decide)
        (by decide)).2.2.2.2.2.1).2 (by decide) 1 (by decide)⟩,
    ((C8_failure_isolated failAtOne gMixed cbFailAll 4 2 ConstraintLevel.high []
      itemsW [PyVal.vnat 1] (PyVal.vnat 0) 1 (by decide)
      (by decide)).2.2.2.2.2.2).2.2.1 (by decide) hmixed,
    by decide,
    ((C8_failure_isolated failAtOne chunkFail cbFailAll 4 2 ConstraintLevel.high []
      itemsW [PyVal.vnat 1] (PyVal.vnat 0) 1 (by decide)
      (by decide)).2.2.2.2.2.2).2.2.2 (by decide) (fun c _ => rfl)⟩

/-- C9: the backpressure wait is a bounded poll loop — it performs at most
`timeoutS` polls (one per second) and then returns control; it returns
`false` (timed out) only if every snapshot observed during the window was
missing or CRITICAL, and `true` as soon as a poll sees an improved tier.
Whatever the wait returns, `_execute_with_resource_management` proceeds to
run the callback — a timeout is not an error and nothing blocks forever. -/
theorem C9_backpressure (latest : ℕ → Option ConstraintLevel) (timeoutS : ℕ)
    (cur : Option ConstraintLevel) (f : PyVal → Option PyVal) (x : PyVal) :
    (waitForResources latest timeoutS).2 ≤ timeoutS
    ∧ ((waitForResources latest timeoutS).1 = false →
        ∀ d, d < timeoutS → ∀ lvl, latest d = Option.some lvl →
          lvl = ConstraintLevel.critical)
    ∧ ((waitForResources latest timeoutS).1 = true →
        ∃ d, d < timeoutS ∧ ∃ lvl, latest d = Option.some lvl
          ∧ lvl ≠ ConstraintLevel.critical)
    ∧ executeWithRM latest cur f x = f x := by
  obtain ⟨hb, hf, ht⟩ := waitLoop_spec latest timeoutS 0
  refine ⟨hb, fun hfe d hd lvl h => ?_, fun hte => ?_, rfl⟩
  · exact hf hfe d hd lvl (by rw [Nat.zero_add]; exact h)
  · obtain ⟨d, hd, lvl, h1, h2⟩ := ht hte
    exact ⟨d, hd, lvl, by rw [← h1]; rw [Nat.zero_add], h2⟩

/-- A snapshot stream that always reports tier Low. -/
def latestLow : ℕ → Option ConstraintLevel := fun _ => Option.some ConstraintLevel.low

/-- Witness for C9: with an always-Low stream the wait returns `true` within
the bound, some polled snapshot is non-critical, and execution under a
CRITICAL current tier still runs the callback. -/
theorem C9_backpressure_witness :
    (waitForResources latestLow 30).1 = true
    ∧ (waitForResources latestLow 30).2 ≤ 30
    ∧ (∃ d, d < 30 ∧ ∃ lvl, latestLow d = Option.some lvl
        ∧ lvl ≠ ConstraintLevel.critical)
    ∧ executeWithRM latestLow (Option.some ConstraintLevel.critical)
        idCallback (PyVal.vnat 0) = idCallback (PyVal.vnat 0) :=
  ⟨by decide,
    (C9_backpressure latestLow 30 (Option.some ConstraintLevel.critical)
      idCallback (PyVal.vnat 0)).1,
    (C9_backpressure latestLow 30 (Option.some ConstraintLevel.critical)
      idCallback (PyVal.vnat 0)).2.2.1 (by decide),
    (C9_backpressure latestLow 30 (Option.some ConstraintLevel.critical)
      idCallback (PyVal.vnat 0)).2.2.2⟩

/-- C10: the cache key is a deterministic digest of the callback's `__name__`
and the string form of the item only — not of the callback's identity.  Two
distinct callbacks sharing a `__name__` therefore share keys: after the first
has cached a result for an item, processing the same item with the second
returns the first's cached value and never invokes the second callback. -/
theorem C10_cache_key (f g : PyVal → Option PyVal) (nm : String) (x r : PyVal)
    (hf : f x = Option.some r) :
    createCacheKey x nm = nm ++ ":" ++ itemKeyStr x
    ∧ (processCachingAggressive ⟨nm, g⟩ [x]
        (processCachingAggressive ⟨nm, f⟩ [x] []).cache).results = [r]
    ∧ (processCachingAggressive ⟨nm, g⟩ [x]
        (processCachingAggressive ⟨nm, f⟩ [x] []).cache).invoked = [] := by
  have h1 : (processCachingAggressive ⟨nm, f⟩ [x] []).cache
      = [(createCacheKey x nm, r)] := by
    simp [processCachingAggressive, lookupKey, hf]
  refine ⟨rfl, ?_, ?_⟩ <;>
    rw [h1] <;> simp [processCachingAggressive, lookupKey]

/-- A callback always returning `1`. -/
def constOne : PyVal → Option PyVal := fun _ => Option.some (PyVal.vnat 1)

/-- A different callback always returning `2`. -/
def constTwo : PyVal → Option PyVal := fun _ => Option.some (PyVal.vnat 2)

/-- Witness for C10: `constTwo`, sharing the `__name__` "detect" with
`constOne`, is never invoked and the stale cached `1` is returned. -/
theorem C10_cache_key_witness :
    constOne (PyVal.vnat 0) = Option.some (PyVal.vnat 1)
    ∧ (processCachingAggressive ⟨"detect", constTwo⟩ [PyVal.vnat 0]
        (processCachingAggressive ⟨"detect", constOne⟩ [PyVal.vnat 0] []).cache).results
        = [PyVal.vnat 1]
    ∧ (processCachingAggressive ⟨"detect", constTwo⟩ [PyVal.vnat 0]
        (processCachingAggressive ⟨"detect", constOne⟩ [PyVal.vnat 0] []).cache).invoked
        = [] :=
  ⟨rfl,
    (C10_cache_key constOne constTwo "detect" (PyVal.vnat 0) (PyVal.vnat 1) rfl).2.1,
    (C10_cache_key constOne constTwo "detect" (PyVal.vnat 0) (PyVal.vnat 1) rfl).2.2⟩
